import Mathlib

/-!
# Verification of the TFRecord-converter core

Shallow embedding of `src/functions/tfrecord-converter/main.py`:
the layout resolver (`find_image_folder`), class indexer, split planner
(including the seeded Mersenne-Twister shuffle of `random.seed(42)` /
`random.shuffle`), and the shard writer (`write_shards`), together with
theorems settling the frozen claims about the specification.
-/

namespace AutoML

set_option maxRecDepth 1000000
set_option exponentiation.threshold 5000

/-- A filesystem tree: a file (contents irrelevant to layout resolution)
or a directory with named entries in OS listing order. -/
inductive FS where
  | file : FS
  | dir (entries : List (String × FS)) : FS

/-- Entries of a directory (`os.listdir` order); listing a plain file
gives `[]` (the source only lists paths it knows to be directories,
except inside `has_images`, whose `except` clause returns `False`). -/
def FS.entries : FS → List (String × FS)
  | .file => []
  | .dir es => es

def FS.listdir (t : FS) : List String := t.entries.map Prod.fst

/-- Resolve one name inside a directory (the OS has at most one entry
per name; we take the first). -/
def FS.lookup (t : FS) (name : String) : Option FS :=
  (t.entries.find? (fun e => e.1 == name)).map Prod.snd

def FS.isDir : FS → Bool
  | .dir _ => true
  | .file => false

/-- `str.lower()` restricted to ASCII (all names the source compares are ASCII). -/
def strLower (s : String) : String := ⟨s.data.map Char.toLower⟩

/-- `str.endswith(suffix)`. -/
def strEndsWith (s suffix : String) : Bool := suffix.data.isSuffixOf s.data

/-- Recognized image extensions, `f.lower().endswith(...)` (main.py line 71). -/
def isImageName (f : String) : Bool :=
  [".png", ".jpg", ".jpeg", ".webp", ".gif", ".bmp"].any fun e => strEndsWith (strLower f) e

/-- Names excluded by `get_subdirs` (main.py line 66). -/
def noiseDirs : List String := ["__pycache__", ".git", "__MACOSX", ".DS_Store"]

/-- `get_subdirs` (main.py lines 61-66): immediate subdirectories, noise
names excluded, in listing order (we keep the subtree with each name). -/
def get_subdirs (t : FS) : List (String × FS) :=
  t.entries.filter fun e => e.2.isDir && !(noiseDirs.contains e.1)

/-- `has_images` (main.py lines 68-73): do the first 20 listed entries
include a name with a recognized image extension?  Listing a non-directory
raises and the `except` returns `False`. -/
def has_images : FS → Bool
  | .file => false
  | .dir es => ((es.map Prod.fst).take 20).any isImageName

/-- Result of `find_image_folder`: paths (as name lists from the search
root) of the resolved train root and optional test root. -/
structure Layout where
  train : List String
  test : Option (List String)
deriving DecidableEq

/-- The `subdir_lower` dict (main.py line 80): keyed by lowercased name,
a later duplicate overwrites an earlier one, hence `getLast?`. -/
def subdirLower (subdirs : List String) (key : String) : Option String :=
  (subdirs.filter fun d => strLower d == key).getLast?

/-- The sibling scan for `test`/`val`/`validation` (main.py lines 88-92). -/
def testSibling (subdirNames : List String) (path : List String) : Option (List String) :=
  ["test", "val", "validation"].findSome? fun tn =>
    (subdirLower subdirNames tn).map fun d => path ++ [d]

/-- One iteration of the `for name in ['train', 'training']` loop body
(main.py lines 83-93): if a subdirectory with the given lowercased name
exists, and its own first listed subdirectory (`train_subdirs[0]`) has an
image among its first 20 entries, resolve. -/
def tryTrainName (t : FS) (subdirs : List (String × FS)) (path : List String)
    (name : String) : Option Layout :=
  match subdirLower (subdirs.map Prod.fst) name with
  | none => none
  | some d =>
    match t.lookup d with
    | none => none
    | some td =>
      match get_subdirs td with
      | [] => none
      | (_, c0) :: _ =>
        if has_images c0 then
          some ⟨path ++ [d], testSibling (subdirs.map Prod.fst) path⟩
        else none

/-- The whole train-folder check (main.py lines 83-93): `train` is tried
before `training`; a failed check falls through. -/
def trainCheck (t : FS) (subdirs : List (String × FS)) (path : List String) :
    Option Layout :=
  (tryTrainName t subdirs path "train").or (tryTrainName t subdirs path "training")

/-- `search` (main.py lines 75-107) with fuel = `max_depth + 1 - depth`:
train check, then flat-class check (`len(subdirs) > 1` and the first
subdirectory has images), then depth-first recursion. -/
def searchFS : Nat → FS → List String → Option Layout
  | 0, _, _ => none
  | fuel+1, t, path =>
    let subdirs := get_subdirs t
    match trainCheck t subdirs path with
    | some lay => some lay
    | none =>
      let flat : Option Layout :=
        match subdirs with
        | (_, c0) :: _ :: _ => if has_images c0 then some ⟨path, none⟩ else none
        | _ => none
      match flat with
      | some lay => some lay
      | none => subdirs.findSome? fun e => searchFS fuel e.2 (path ++ [e.1])

/-- `find_image_folder` (main.py lines 58-109) with the default `max_depth = 4`. -/
def find_image_folder (t : FS) : Option Layout := searchFS 5 t []

/-! ## The seeded random generator

`convert_to_tfrecord` calls `random.seed(42)` then `random.shuffle` (main.py
lines 258-259).  CPython's generator is MT19937; we embed it exactly.  The
624-word state array is packed little-endian into a single natural number,
32 bits per word. -/

def mtMask : Nat := 4294967295

/-- Word `i` of a packed state. -/
def w32get (st : Nat) (i : Nat) : Nat := (st >>> (32 * i)) &&& mtMask

/-- Replace word `i` of a packed state. -/
def w32set (st : Nat) (i v : Nat) : Nat :=
  st - ((w32get st i) <<< (32 * i)) + ((v &&& mtMask) <<< (32 * i))

/-- `if c then x else x`: semantically the identity (`forceVia_eq`); the
scrutinee makes kernel reduction of the loops below evaluate their state
strictly, keeping reduction depth bounded. -/
def forceVia (c : Prop) [Decidable c] (x : α) : α := if c then x else x

/-- MT19937 `init_genrand(s)`: `mt[0] = s`,
`mt[i] = (1812433253 * (mt[i-1] ^ (mt[i-1] >> 30)) + i) mod 2^32`. -/
def init_genrand (s : Nat) : Nat :=
  ((List.range 623).foldl (fun (p : Nat × Nat) i =>
      let w := (1812433253 * (p.2 ^^^ (p.2 >>> 30)) + (i+1)) &&& mtMask
      (p.1 + (w <<< (32*(i+1))), w))
    (s &&& mtMask, s &&& mtMask)).1

/-- One iteration of the first `init_by_array` loop; state `(mt, i, j)`. -/
def ibaStep1 (key : List Nat) (st : Nat × Nat × Nat) : Nat × Nat × Nat :=
  let mt := st.1
  let i := st.2.1
  let j := st.2.2
  let v := ((w32get mt i) ^^^ (((w32get mt (i-1)) ^^^ ((w32get mt (i-1)) >>> 30)) * 1664525))
             + (key.getD j 0) + j
  let mt := w32set mt i v
  let p := if i + 1 ≥ 624 then (w32set mt 0 (w32get mt 623), 1) else (mt, i + 1)
  let j' := if j + 1 ≥ key.length then 0 else j + 1
  (p.1, p.2, j')

def loop1 (key : List Nat) : Nat → (Nat × Nat × Nat) → (Nat × Nat × Nat)
  | 0, st => st
  | k+1, st => forceVia (st.1 + st.2.1 + st.2.2 = 0) (loop1 key k (ibaStep1 key st))

/-- One iteration of the second `init_by_array` loop; state `(mt, i)`;
the `- i` of the C code is `+ (2^32 - i)` before the 32-bit mask. -/
def ibaStep2 (st : Nat × Nat) : Nat × Nat :=
  let mt := st.1
  let i := st.2
  let v := ((w32get mt i) ^^^ (((w32get mt (i-1)) ^^^ ((w32get mt (i-1)) >>> 30)) * 1566083941))
             + (4294967296 - i)
  let mt := w32set mt i v
  if i + 1 ≥ 624 then (w32set mt 0 (w32get mt 623), 1) else (mt, i + 1)

def loop2 : Nat → (Nat × Nat) → (Nat × Nat)
  | 0, st => st
  | k+1, st => forceVia (st.1 + st.2 = 0) (loop2 k (ibaStep2 st))

/-- MT19937 `init_by_array`, the seeding CPython uses for `random.seed(n)`
(the integer seed is split into 32-bit words as the key; `42 ↦ [42]`). -/
def init_by_array (key : List Nat) : Nat :=
  let s1 := loop1 key (max 624 key.length) (init_genrand 19650218, 1, 0)
  let s2 := loop2 623 (s1.1, s1.2.1)
  w32set s2.1 0 2147483648

/-- One step of the MT19937 state twist (in place, as in the C code). -/
def twistStep (m : Nat) (i : Nat) : Nat :=
  let y := ((w32get m i) &&& 2147483648) ||| ((w32get m ((i+1) % 624)) &&& 2147483647)
  let v := (w32get m ((i+397) % 624)) ^^^ (y >>> 1) ^^^ (if y % 2 = 1 then 2567483615 else 0)
  w32set m i v

def twistLoop : Nat → Nat → Nat → Nat
  | 0, _, m => m
  | k+1, i, m => forceVia (m + i = 0) (twistLoop k (i+1) (twistStep m i))

def twist (m : Nat) : Nat := twistLoop 624 0 m

/-- MT19937 output tempering. -/
def temper (y : Nat) : Nat :=
  let y := y ^^^ (y >>> 11)
  let y := y ^^^ ((y <<< 7) &&& 2636928640)
  let y := y ^^^ ((y <<< 15) &&& 4022730752)
  y ^^^ (y >>> 18)

structure MTState where
  mt : Nat
  idx : Nat

/-- State right after `random.seed` (index 624 forces a twist first). -/
def pySeedState (key : List Nat) : MTState := ⟨init_by_array key, 624⟩

/-- `genrand_uint32`. -/
def genrand (s : MTState) : Nat × MTState :=
  if s.idx ≥ 624 then
    let m := twist s.mt
    (temper (w32get m 0), ⟨m, 1⟩)
  else (temper (w32get s.mt s.idx), ⟨s.mt, s.idx + 1⟩)

/-- `getrandbits(k)` for `1 ≤ k ≤ 32`: one word shifted right by `32 - k`. -/
def getrandbits (k : Nat) (s : MTState) : Nat × MTState :=
  let r := genrand s
  (r.1 >>> (32 - k), r.2)

/-- `int.bit_length` (fuel 64: exact for all numbers below `2^64`). -/
def bitLenLoop : Nat → Nat → Nat
  | 0, _ => 0
  | f+1, n => if n = 0 then 0 else bitLenLoop f (n >>> 1) + 1

def bitLength (n : Nat) : Nat := bitLenLoop 64 n

/-- The rejection loop of `Random._randbelow_with_getrandbits`.  The source
loops until a draw is below `n`; the loop terminates only with probability 1,
so the embedding carries fuel (64 redraws, never exhausted on the inputs
evaluated here). -/
def randbelowLoop (n k : Nat) : Nat → (Nat × MTState) → Nat × MTState
  | 0, rs => rs
  | fuel+1, rs => if rs.1 ≥ n then randbelowLoop n k fuel (getrandbits k rs.2) else rs

/-- `_randbelow(n)`: `k = n.bit_length()`, redraw `getrandbits(k)` while `≥ n`. -/
def randbelow (n : Nat) (s : MTState) : Nat × MTState :=
  let k := bitLength n
  randbelowLoop n k 64 (getrandbits k s)

/-- `x[i], x[j] = x[j], x[i]` on a list (identity if an index is out of
range, which never happens in the shuffle loop). -/
def listSwap (l : List α) (i j : Nat) : List α :=
  match l[i]?, l[j]? with
  | some a, some b => (l.set i b).set j a
  | _, _ => l

/-- The loop of `random.shuffle`: `for i in reversed(range(1, len(x))):
j = _randbelow(i+1); swap x[i], x[j]`.  The argument counts remaining
iterations; loop variable `i` is the count itself. -/
def shuffleGo : Nat → List α × MTState → List α × MTState
  | 0, xs => xs
  | i+1, xs =>
    let r := randbelow (i+2) xs.2
    shuffleGo i (listSwap xs.1 (i+1) r.1, r.2)

/-- `random.seed(42); random.shuffle(x)` (main.py lines 258-259). -/
def pyShuffle (x : List α) : List α :=
  (shuffleGo (x.length - 1) (x, pySeedState [42])).1

/-! ## Class indexer, sample collection and split planner
(main.py lines 112-122 and 242-272).  A sample is a `(path, label)` pair;
paths are name lists relative to the split root. -/

/-- Names excluded when listing class folders (main.py line 244; note this
list is shorter than `noiseDirs`). -/
def convertNoise : List String := ["__pycache__", "__MACOSX"]

/-- `class_names` (main.py lines 242-244): subdirectory names of the train
root, noise excluded, sorted (Python `sorted`, lexicographic on code
points, which is exactly `≤` on `String`). -/
def class_names (train_dir : FS) : List String :=
  ((train_dir.entries.filter fun e =>
      e.2.isDir && !(convertNoise.contains e.1)).map Prod.fst).mergeSort

/-- `class_to_idx` (main.py line 245): the dict `{name: idx}` built by
enumerating `class_names`, as an association list. -/
def class_to_idx (names : List String) : List (String × Nat) :=
  names.enum.map fun p => (p.2, p.1)

/-- `collect_images` (main.py lines 112-122): files of a class directory
with a recognized image extension, in listing order, paired with the label. -/
def collect_images (class_dir : FS) (class_path : List String) (class_idx : Nat) :
    List (List String × Nat) :=
  (class_dir.listdir.filter isImageName).map fun f => (class_path ++ [f], class_idx)

/-- The train-pool collection loop (main.py lines 247-254): for each class
name in order, extend with `collect_images` of the class folder, labelled
by its position in `class_names`. -/
def train_pool (train_dir : FS) : List (List String × Nat) :=
  (class_names train_dir).enum.foldl (fun acc p =>
    acc ++ (match train_dir.lookup p.2 with
            | some cd => collect_images cd [p.2] p.1
            | none => [])) []

/-- The test-collection loop (main.py lines 267-272): iterate the
*train-derived* class names; skip a class whose folder does not exist under
the test root.  (If the entry exists but is a plain file the source would
raise on `os.listdir`; the model lists it as empty — no claim exercises
that path.) -/
def test_images (test_dir : FS) (names : List String) : List (List String × Nat) :=
  names.enum.foldl (fun acc p =>
    acc ++ (match test_dir.lookup p.2 with
            | some cd => collect_images cd [p.2] p.1
            | none => [])) []

/-! The split index `int(len(train_images) * (1 - val_split))` (main.py
line 263) is computed by the program in IEEE-754 binary64 arithmetic:
`val_split` arrives as a double from the JSON parse, `1 - val_split` is a
correctly rounded double subtraction, `len(train_images)` is converted to
a double (rounded for lengths above `2^53`), the product is one more
correctly rounded double operation, and `int()` truncates toward zero.
We embed that arithmetic exactly; a finite double is represented as a
dyadic pair `(m, k)` standing for `m / 2^k`. -/

def log2Small : Nat → Nat → Nat → Nat
  | 0, _, acc => acc
  | f+1, n, acc => if n ≤ 1 then acc else log2Small f (n >>> 1) (acc + 1)

def log2Big : Nat → Nat → Nat → Nat
  | 0, _, acc => acc
  | f+1, n, acc =>
    if n < 18446744073709551616 then log2Small 64 n acc
    else log2Big f (n >>> 64) (acc + 64)

/-- `floor (log2 n)` for `n ≥ 1` (the fuel covers numbers up to 2560
bits, far beyond every value arising here). -/
def natLog2 (n : Nat) : Nat := log2Big 40 n 0

def pow2Z (k : ℕ) : ℤ := ((2^k : ℕ) : ℤ)

/-- Round the fraction `n / d` (`n ≥ 0 < d`) to the nearest integer,
ties to even. -/
def roundHalfEvenFrac (n d : ℤ) : ℤ :=
  let m := n.ediv d
  let r := n.emod d
  if 2 * r < d then m else if d < 2 * r then m + 1 else if m % 2 = 0 then m else m + 1

/-- Round the positive fraction `n / d` to the nearest IEEE-754 binary64
value (round to nearest, ties to even), as a dyadic `(m, k)` meaning
`m / 2^k`: the unit in the last place is `2^g` with
`g = max (⌊log2 (n/d)⌋ - 52) (-1074)` (the second bound covers
subnormals).  Assumes `2^-2200 ≤ n / d` — every nonzero value reachable
in the split computation is a product of at most two doubles and
satisfies this — and ignores overflow to infinity, which would need a
sample count beyond `2^1024` (where CPython raises instead). -/
def dblRoundPos (n d : ℤ) : ℤ × ℕ :=
  let e : ℤ := (natLog2 ((n * pow2Z 2200).ediv d).toNat : ℤ) - 2200
  let g : ℤ := if e - 52 < -1074 then -1074 else e - 52
  if 0 ≤ g then
    (roundHalfEvenFrac n (d * pow2Z g.toNat) * pow2Z g.toNat, 0)
  else
    (roundHalfEvenFrac (n * pow2Z (-g).toNat) d, (-g).toNat)

/-- Round the fraction `n / d` (`d > 0`, any sign) to binary64. -/
def dblRoundFrac (n d : ℤ) : ℤ × ℕ :=
  if n = 0 then (0, 0)
  else if 0 < n then dblRoundPos n d
  else
    let p := dblRoundPos (-n) d
    (-p.1, p.2)

/-- Round a rational to binary64 — the conversion the JSON parse applies
to the request's `valSplit` before the planner ever sees it. -/
def dblRoundRat (q : ℚ) : ℤ × ℕ := dblRoundFrac q.num (q.den : ℤ)

/-- The split index of main.py line 263,
`int(len(train_images) * (1 - val_split))`, in exact binary64 semantics:
round the fraction, subtract from 1 and round, convert the length and
round, multiply and round, then truncate toward zero (`Int.tdiv`). -/
def splitIdx (nn : Nat) (val_split : ℚ) : Nat :=
  let vs := dblRoundRat val_split
  let t := dblRoundFrac (pow2Z vs.2 - vs.1) (pow2Z vs.2)
  let nf := dblRoundFrac (nn : ℤ) 1
  let p := dblRoundFrac (nf.1 * t.1) (pow2Z (nf.2 + t.2))
  (Int.tdiv p.1 (pow2Z p.2)).toNat

/-- The split planner (main.py lines 258-265): shuffle the pool with the
fixed seed 42, then, only when no test folder was resolved and
`val_split > 0`, split at `splitIdx`; first component is the retained
train list, second the validation list. -/
def splitPlan (test_dir : Option FS) (val_split : ℚ) (train_images : List α) :
    List α × List α :=
  let s := pyShuffle train_images
  if test_dir.isNone ∧ 0 < val_split then
    (s.take (splitIdx s.length val_split), s.drop (splitIdx s.length val_split))
  else (s, [])

/-- `trainSamples` of the manifest (main.py line 324): the length of the
(post-split) train list — counted before any encode/read failures. -/
def metaTrainSamples (train_images : List α) : Nat := train_images.length

/-! ## Shard writer (main.py lines 148-184)

`write_shards` is generic in the sample type; `enc` stands for
`create_example` (file read plus protobuf serialization): `none` models the
exception the `except` clause catches, `some bytes` the serialized record.
`digest` stands for `hashlib.md5` over a closed shard file's bytes — a
finished TFRecord file's bytes are determined by its record sequence, so
the digest is a function of that sequence. -/

/-- `f"{idx:05d}"`. -/
def pad5 (n : Nat) : String :=
  let s := toString n
  String.mk (List.replicate (5 - s.length) '0') ++ s

/-- `f"{output_prefix}-{shard_idx:05d}.tfrecord"` (main.py line 165). -/
def shardName (pre : String) (idx : Nat) : String :=
  pre ++ "-" ++ pad5 idx ++ ".tfrecord"

/-- `os.path.basename`: everything after the last `/`. -/
def basename (p : String) : String :=
  String.mk (p.data.foldl (fun acc c => if c = '/' then [] else acc ++ [c]) [])

/-- Shard-writer loop state: emitted shard basenames, recorded checksums,
closed (finished) files with their record sequences, next shard index,
accumulated size of the open shard, and the open writer (path and records
written so far), if any. -/
structure WSState where
  shard_paths : List String
  checksums : List (String × Nat)
  files : List (String × List (List Nat))
  shard_idx : Nat
  current_size : Nat
  writer : Option (String × List (List Nat))

def initWS : WSState := ⟨[], [], [], 0, 0, none⟩

/-- `writer.close()` plus the checksum recording (main.py lines 160-163 and
179-182): finalize the open file and record `basename ↦ digest`. -/
def closeCur (digest : List (List Nat) → Nat) (s : WSState) : WSState :=
  match s.writer with
  | none => s
  | some w =>
    { s with files := s.files ++ [w],
             checksums := s.checksums ++ [(basename w.1, digest w.2)],
             writer := none }

/-- Opening a new shard (main.py lines 165-169). -/
def openNew (pre : String) (s : WSState) : WSState :=
  let path := shardName pre s.shard_idx
  { s with writer := some (path, []),
           shard_paths := s.shard_paths ++ [basename path],
           shard_idx := s.shard_idx + 1,
           current_size := 0 }

/-- One iteration of the `for img_path, label in images` loop (main.py
lines 158-177): roll over when no shard is open or the accumulated size
reached the threshold; then encode, append and count on success, skip on
failure. -/
def wsStep (enc : α → Option (List Nat)) (digest : List (List Nat) → Nat)
    (pre : String) (thresh : Nat) (s : WSState) (img : α) : WSState :=
  let s := if s.writer.isNone ∨ s.current_size ≥ thresh
           then openNew pre (closeCur digest s) else s
  match enc img with
  | some ser =>
    { s with writer := s.writer.map fun w => (w.1, w.2 ++ [ser]),
             current_size := s.current_size + ser.length }
  | none => s

/-- `write_shards` (main.py lines 148-184): fold the loop over the samples,
then close the final shard if one is open. -/
def write_shards (enc : α → Option (List Nat)) (digest : List (List Nat) → Nat)
    (pre : String) (thresh : Nat) (images : List α) : WSState :=
  closeCur digest (images.foldl (wsStep enc digest pre thresh) initWS)

/-- Total number of records landing in the finished shard files. -/
def totalRecords (s : WSState) : Nat := (s.files.map fun f => f.2.length).sum

/-- Byte size of a record sequence (sum of serialized lengths, the quantity
`current_size` accumulates). -/
def recsSize (recs : List (List Nat)) : Nat := (recs.map List.length).sum

/-- Basenames contributed by the open writer, if any. -/
def writerPaths : Option (String × List (List Nat)) → List String
  | some w => [basename w.1]
  | none => []

/-- Records still sitting in the open writer, if any. -/
def writerRecs : Option (String × List (List Nat)) → Nat
  | some w => w.2.length
  | none => 0

/-- Records on disk plus records in the open writer. -/
def liveRecords (s : WSState) : Nat := totalRecords s + writerRecs s.writer

/-- The shard-writer loop invariant: checksums mirror the closed files,
the emitted name list is the closed files plus the open writer, the open
writer's byte size is `current_size`, and every closed file reached the
threshold. -/
def wsGood (digest : List (List Nat) → Nat) (thresh : Nat) (s : WSState) : Prop :=
  s.checksums = s.files.map (fun f => (basename f.1, digest f.2)) ∧
  s.shard_paths = s.files.map (fun f => basename f.1) ++ writerPaths s.writer ∧
  (∀ w, s.writer = some w → recsSize w.2 = s.current_size) ∧
  (∀ f ∈ s.files, thresh ≤ recsSize f.2)

/-! ## Concrete instances used by witnesses and counterexamples -/

/-- A demo encoder: sample `1` is unreadable (`create_example` raises),
every other sample serializes to two bytes. -/
def encDemo : Nat → Option (List Nat) := fun n => if n = 1 then none else some [7, 7]

/-- A demo encoder with no failures. -/
def encPair : Nat → Option (List Nat) := fun _ => some [7, 7]

/-- A demo digest function standing in for md5. -/
def digestDemo : List (List Nat) → Nat := recsSize

/-- A train folder whose first listed subdirectory `a` has no images while
the second subdirectory `b` does. -/
def cexC2train : FS :=
  FS.dir [("a", FS.dir [("readme.txt", FS.file)]),
          ("b", FS.dir [("x.png", FS.file)])]

/-- The counterexample tree for C2: a `train` folder (with `b` containing
images) and a `test` sibling. -/
def cexC2 : FS := FS.dir [("train", cexC2train), ("test", FS.dir [("a", FS.dir [])])]

/-- A tree where the claim and the code agree: the first subdirectory of
`Train` has images and a `Val` sibling exists. -/
def goodC2 : FS :=
  FS.dir [("Train", FS.dir [("cats", FS.dir [("1.png", FS.file)])]),
          ("Val", FS.dir [])]

theorem forceVia_eq (c : Prop) [Decidable c] (x : α) : forceVia c x = x := by
  unfold forceVia; split <;> rfl

section ShardLemmas

variable {α : Type} (enc : α → Option (List Nat)) (digest : List (List Nat) → Nat)
variable (pre : String) (thresh : Nat)

theorem wsGood_init : wsGood digest thresh initWS := by
  refine ⟨rfl, rfl, ?_, ?_⟩ <;> simp [initWS]

theorem closeCur_of_none {s : WSState} (h : s.writer = none) :
    closeCur digest s = s := by
  unfold closeCur; rw [h]

theorem closeCur_of_some {s : WSState} {w} (h : s.writer = some w) :
    closeCur digest s =
      { s with files := s.files ++ [w],
               checksums := s.checksums ++ [(basename w.1, digest w.2)],
               writer := none } := by
  unfold closeCur; rw [h]

theorem openNew_def (s : WSState) :
    openNew pre s =
      { s with writer := some (shardName pre s.shard_idx, []),
               shard_paths := s.shard_paths ++ [basename (shardName pre s.shard_idx)],
               shard_idx := s.shard_idx + 1,
               current_size := 0 } := rfl

theorem openNew_writer (s : WSState) :
    (openNew pre s).writer = some (shardName pre s.shard_idx, []) := rfl

theorem closeCur_writer_none (s : WSState) : (closeCur digest s).writer = none := by
  cases hw : s.writer with
  | none => rw [closeCur_of_none digest hw]; exact hw
  | some w => rw [closeCur_of_some digest hw]

theorem wsGood_closeCur {s : WSState} (h : wsGood digest thresh s)
    (hth : s.writer.isNone = true ∨ thresh ≤ s.current_size) :
    wsGood digest thresh (closeCur digest s) := by
  obtain ⟨h1, h2, h3, h4⟩ := h
  cases hw : s.writer with
  | none => rw [closeCur_of_none digest hw]; exact ⟨h1, h2, h3, h4⟩
  | some w =>
    have hth' : thresh ≤ s.current_size := by
      rcases hth with hth | hth
      · rw [hw] at hth; simp at hth
      · exact hth
    rw [closeCur_of_some digest hw]
    refine ⟨?_, ?_, ?_, ?_⟩
    · simp [h1]
    · simp only []
      rw [h2, hw]
      simp [writerPaths]
    · intro w' hwm
      simp at hwm
    · intro f hf
      simp only [List.mem_append, List.mem_singleton] at hf
      rcases hf with hf | hf
      · exact h4 f hf
      · subst hf; rw [h3 _ hw]; exact hth'

theorem wsGood_openNew {s : WSState} (h : wsGood digest thresh s)
    (hw : s.writer = none) : wsGood digest thresh (openNew pre s) := by
  obtain ⟨h1, h2, h3, h4⟩ := h
  rw [openNew_def]
  refine ⟨h1, ?_, ?_, h4⟩
  · simp only []
    rw [h2, hw]
    simp [writerPaths]
  · intro w hwm
    simp only [] at hwm
    cases hwm
    simp [recsSize]

theorem wsGood_write {s : WSState} (h : wsGood digest thresh s) {w}
    (hw : s.writer = some w) (ser : List Nat) :
    wsGood digest thresh
      { s with writer := s.writer.map fun w => (w.1, w.2 ++ [ser]),
               current_size := s.current_size + ser.length } := by
  obtain ⟨h1, h2, h3, h4⟩ := h
  refine ⟨h1, ?_, ?_, h4⟩
  · simp only []
    rw [h2, hw]
    simp [writerPaths]
  · intro w' hwm
    rw [hw] at hwm
    simp only [Option.map_some'] at hwm
    cases hwm
    have := h3 w hw
    simp [recsSize] at this ⊢
    omega

theorem wsStep_good {s : WSState} (h : wsGood digest thresh s) (a : α) :
    wsGood digest thresh (wsStep enc digest pre thresh s a) := by
  unfold wsStep
  by_cases hro : s.writer.isNone = true ∨ s.current_size ≥ thresh
  · rw [if_pos hro]
    have hg : wsGood digest thresh (openNew pre (closeCur digest s)) :=
      wsGood_openNew digest pre thresh
        (wsGood_closeCur digest thresh h hro) (closeCur_writer_none digest s)
    cases he : enc a with
    | none => exact hg
    | some ser =>
      exact wsGood_write digest thresh hg (openNew_writer pre _) ser
  · rw [if_neg hro]
    push_neg at hro
    obtain ⟨hwn, _⟩ := hro
    cases hw : s.writer with
    | none => rw [hw] at hwn; simp at hwn
    | some w =>
      cases he : enc a with
      | none => exact h
      | some ser => exact wsGood_write digest thresh h hw ser

theorem foldl_wsStep_good {s : WSState} (h : wsGood digest thresh s) (l : List α) :
    wsGood digest thresh (l.foldl (wsStep enc digest pre thresh) s) := by
  induction l generalizing s with
  | nil => exact h
  | cons a l ih => exact ih (wsStep_good enc digest pre thresh h a)

theorem write_shards_checksums_eq (images : List α) :
    (write_shards enc digest pre thresh images).checksums =
      (write_shards enc digest pre thresh images).files.map
        fun f => (basename f.1, digest f.2) := by
  unfold write_shards
  obtain ⟨h1, h2, h3, h4⟩ :=
    foldl_wsStep_good enc digest pre thresh (wsGood_init digest thresh) images
  set t := images.foldl (wsStep enc digest pre thresh) initWS
  cases hw : t.writer with
  | none => rw [closeCur_of_none digest hw]; exact h1
  | some w => rw [closeCur_of_some digest hw]; simp [h1]

theorem write_shards_writer_none (images : List α) :
    (write_shards enc digest pre thresh images).writer = none :=
  closeCur_writer_none digest _

theorem write_shards_paths_eq (images : List α) :
    (write_shards enc digest pre thresh images).shard_paths =
      (write_shards enc digest pre thresh images).files.map
        fun f => basename f.1 := by
  unfold write_shards
  obtain ⟨h1, h2, h3, h4⟩ :=
    foldl_wsStep_good enc digest pre thresh (wsGood_init digest thresh) images
  set t := images.foldl (wsStep enc digest pre thresh) initWS
  cases hw : t.writer with
  | none =>
    rw [closeCur_of_none digest hw]
    rw [h2, hw]
    simp [writerPaths]
  | some w =>
    rw [closeCur_of_some digest hw]
    simp only []
    rw [h2, hw]
    simp [writerPaths]

theorem liveRecords_closeCur (s : WSState) :
    liveRecords (closeCur digest s) = liveRecords s := by
  cases hw : s.writer with
  | none => rw [closeCur_of_none digest hw]
  | some w =>
    rw [closeCur_of_some digest hw]
    simp [liveRecords, totalRecords, writerRecs, hw]

theorem totalRecords_closeCur (s : WSState) :
    totalRecords (closeCur digest s) = liveRecords s := by
  cases hw : s.writer with
  | none =>
    rw [closeCur_of_none digest hw]
    simp [liveRecords, writerRecs, hw]
  | some w =>
    rw [closeCur_of_some digest hw]
    simp [liveRecords, totalRecords, writerRecs, hw]

theorem liveRecords_openNew (s : WSState) (hw : s.writer = none) :
    liveRecords (openNew pre s) = liveRecords s := by
  rw [openNew_def]
  simp [liveRecords, totalRecords, writerRecs, hw]

theorem wsStep_live (s : WSState) (a : α) :
    liveRecords (wsStep enc digest pre thresh s a) =
      liveRecords s + (if (enc a).isSome then 1 else 0) := by
  unfold wsStep
  by_cases hro : s.writer.isNone = true ∨ s.current_size ≥ thresh
  · rw [if_pos hro]
    have hbase : liveRecords (openNew pre (closeCur digest s)) = liveRecords s := by
      rw [liveRecords_openNew pre _ (closeCur_writer_none digest s), liveRecords_closeCur]
    cases he : enc a with
    | none => simpa using hbase
    | some ser =>
      simp only [Option.isSome_some, if_pos]
      rw [← hbase]
      have hw' := openNew_writer pre (closeCur digest s)
      simp only [liveRecords, totalRecords, writerRecs, hw', Option.map_some',
        List.nil_append, List.length_cons, List.length_nil]
  · rw [if_neg hro]
    push_neg at hro
    obtain ⟨hwn, _⟩ := hro
    cases hw : s.writer with
    | none => rw [hw] at hwn; simp at hwn
    | some w =>
      cases he : enc a with
      | none => simp
      | some ser =>
        simp only [Option.isSome_some, if_pos]
        simp only [liveRecords, totalRecords, writerRecs, hw, Option.map_some',
          List.length_append, List.length_cons, List.length_nil]
        omega

theorem foldl_wsStep_live (l : List α) (s : WSState) :
    liveRecords (l.foldl (wsStep enc digest pre thresh) s) =
      liveRecords s + l.countP (fun a => (enc a).isSome) := by
  induction l generalizing s with
  | nil => simp
  | cons a l ih =>
    simp only [List.foldl_cons, List.countP_cons]
    rw [ih, wsStep_live]
    by_cases he : (enc a).isSome
    · simp [he]
      omega
    · simp [he]

theorem write_shards_records (images : List α) :
    totalRecords (write_shards enc digest pre thresh images) =
      images.countP (fun a => (enc a).isSome) := by
  unfold write_shards
  rw [totalRecords_closeCur, foldl_wsStep_live]
  simp [liveRecords, totalRecords, initWS, writerRecs]

theorem write_shards_nil :
    write_shards enc digest pre thresh ([] : List α) = initWS := by
  unfold write_shards
  simp only [List.foldl_nil]
  exact closeCur_of_none digest rfl

theorem wsStep_paths_extend (s : WSState) (a : α) :
    ∃ t, (wsStep enc digest pre thresh s a).shard_paths = s.shard_paths ++ t := by
  unfold wsStep
  by_cases hro : s.writer.isNone = true ∨ s.current_size ≥ thresh
  · rw [if_pos hro]
    cases he : enc a with
    | none =>
      refine ⟨[basename (shardName pre (closeCur digest s).shard_idx)], ?_⟩
      rw [openNew_def]
      simp only []
      cases hw : s.writer with
      | none => rw [closeCur_of_none digest hw]
      | some w => rw [closeCur_of_some digest hw]
    | some ser =>
      refine ⟨[basename (shardName pre (closeCur digest s).shard_idx)], ?_⟩
      simp only [openNew_def]
      cases hw : s.writer with
      | none => rw [closeCur_of_none digest hw]
      | some w => rw [closeCur_of_some digest hw]
  · rw [if_neg hro]
    cases he : enc a with
    | none => exact ⟨[], by simp⟩
    | some ser => exact ⟨[], by simp⟩

theorem foldl_wsStep_paths_extend (l : List α) (s : WSState) :
    ∃ t, (l.foldl (wsStep enc digest pre thresh) s).shard_paths =
      s.shard_paths ++ t := by
  induction l generalizing s with
  | nil => exact ⟨[], by simp⟩
  | cons a l ih =>
    obtain ⟨t₁, h₁⟩ := wsStep_paths_extend enc digest pre thresh s a
    obtain ⟨t₂, h₂⟩ := ih (wsStep enc digest pre thresh s a)
    exact ⟨t₁ ++ t₂, by simp only [List.foldl_cons, h₂, h₁, List.append_assoc]⟩

theorem closeCur_shard_paths (s : WSState) :
    (closeCur digest s).shard_paths = s.shard_paths := by
  cases hw : s.writer with
  | none => rw [closeCur_of_none digest hw]
  | some w => rw [closeCur_of_some digest hw]

theorem wsStep_init_paths (a : α) :
    (wsStep enc digest pre thresh initWS a).shard_paths =
      [basename (shardName pre 0)] := by
  cases he : enc a with
  | none => simp only [wsStep, he]; rfl
  | some ser => simp only [wsStep, he]; rfl

theorem write_shards_cons_head (a : α) (l : List α) :
    (write_shards enc digest pre thresh (a :: l)).shard_paths.head? =
      some (basename (shardName pre 0)) := by
  unfold write_shards
  rw [closeCur_shard_paths]
  simp only [List.foldl_cons]
  obtain ⟨t, ht⟩ := foldl_wsStep_paths_extend enc digest pre thresh l
    (wsStep enc digest pre thresh initWS a)
  rw [ht, wsStep_init_paths]
  rfl

theorem listSwap_perm [DecidableEq β] (l : List β) (i j : Nat) :
    (listSwap l i j).Perm l := by
  unfold listSwap
  cases hi : l[i]? with
  | none => exact List.Perm.refl l
  | some a =>
    cases hj : l[j]? with
    | none => exact List.Perm.refl l
    | some b =>
      obtain ⟨hi', hia⟩ := List.getElem?_eq_some_iff.mp hi
      obtain ⟨hj', hjb⟩ := List.getElem?_eq_some_iff.mp hj
      have hia2 : ∀ hh : i < l.length, getElem l i hh = a := fun hh => hia
      have hjb2 : ∀ hh : j < l.length, getElem l j hh = b := fun hh => hjb
      have hmem : a ∈ l := hia ▸ List.getElem_mem hi'
      have hj2 : j < (l.set i b).length := by
        rw [List.length_set]; exact hj'
      rw [List.perm_iff_count]
      intro x
      rw [List.count_set a x (l.set i b) j hj2, List.count_set b x l i hi']
      rw [hia2]
      by_cases hij : i = j
      · subst hij
        have hgb : getElem (l.set i b) i hj2 = b := by
          rw [List.getElem_set_self]
        rw [hgb]
        have hab : a = b := by rw [← hia, ← hjb]
        subst hab
        by_cases hax : a = x
        · subst hax
          have hcp : 0 < l.count a := List.count_pos_iff.mpr hmem
          simp only [beq_self_eq_true, if_pos]
          omega
        · simp [hax]
      · rw [List.getElem_set_ne hij, hjb2]
        by_cases hax : a = x
        · subst hax
          have hcp : 0 < l.count a := List.count_pos_iff.mpr hmem
          by_cases hbx : b = a
          · simp only [hbx, beq_self_eq_true, if_pos]
            omega
          · simp only [beq_self_eq_true, if_pos]
            rw [if_neg (by simpa using hbx)]
            omega
        · by_cases hbx : b = x
          · subst hbx
            simp only [beq_self_eq_true, if_pos]
            rw [if_neg (by simpa using hax)]
            omega
          · rw [if_neg (by simpa using hax), if_neg (by simpa using hbx)]
            omega

theorem shuffleGo_perm [DecidableEq β] (n : Nat) :
    ∀ (x : List β) (s : MTState), ((shuffleGo n (x, s)).1).Perm x := by
  induction n with
  | zero => intro x s; exact List.Perm.refl x
  | succ n ih =>
    intro x s
    simp only [shuffleGo]
    exact (ih _ _).trans (listSwap_perm x (n+1) _)

theorem pyShuffle_perm [DecidableEq β] (x : List β) : (pyShuffle x).Perm x :=
  shuffleGo_perm (x.length - 1) x (pySeedState [42])

theorem write_shards_closed_ge (images : List α) :
    ∀ f ∈ (write_shards enc digest pre thresh images).files.dropLast,
      thresh ≤ recsSize f.2 := by
  unfold write_shards
  obtain ⟨h1, h2, h3, h4⟩ :=
    foldl_wsStep_good enc digest pre thresh (wsGood_init digest thresh) images
  set t := images.foldl (wsStep enc digest pre thresh) initWS
  intro f hf
  cases hw : t.writer with
  | none =>
    rw [closeCur_of_none digest hw] at hf
    exact h4 f ((List.dropLast_sublist t.files).subset hf)
  | some w =>
    rw [closeCur_of_some digest hw] at hf
    simp only [List.dropLast_concat] at hf
    exact h4 f hf

end ShardLemmas

/-! ## Claim theorems: shard writer -/

section ShardClaims

variable {β : Type}

/-- C7: for every shard file emitted by the Shard Writer, recomputing the
digest over the finished shard file's contents after it is closed yields
exactly the checksum recorded for that shard (the checksum map equals the
digest mapped over the final file contents, key for key). -/
theorem C7_checksum_validity (enc : β → Option (List Nat))
    (digest : List (List Nat) → Nat) (pre : String) (thresh : Nat)
    (images : List β) :
    (write_shards enc digest pre thresh images).checksums =
      (write_shards enc digest pre thresh images).files.map
        fun fl => (basename fl.1, digest fl.2) :=
  write_shards_checksums_eq enc digest pre thresh images

/-- C9: the checksum map's keys are exactly the emitted shard filename
list (in order): every opened shard is eventually closed and checksummed,
and no checksum is recorded for an unlisted filename. -/
theorem C9_checksum_keys_are_shard_list (enc : β → Option (List Nat))
    (digest : List (List Nat) → Nat) (pre : String) (thresh : Nat)
    (images : List β) :
    (write_shards enc digest pre thresh images).checksums.map Prod.fst =
      (write_shards enc digest pre thresh images).shard_paths := by
  rw [write_shards_checksums_eq, write_shards_paths_eq, List.map_map]
  rfl

/-- C4: no shard except possibly the last of a split is closed below the
threshold: every finished file other than the final one has accumulated
serialized size at least `thresh` (a single oversized record also
satisfies this, so the claim's second exemption is subsumed). -/
theorem C4_rollover_only_at_threshold (enc : β → Option (List Nat))
    (digest : List (List Nat) → Nat) (pre : String) (thresh : Nat)
    (images : List β) :
    ∀ fl ∈ (write_shards enc digest pre thresh images).files.dropLast,
      thresh ≤ recsSize fl.2 :=
  write_shards_closed_ge enc digest pre thresh images

/-- Witness for C4 at a concrete run: threshold 3, four 2-byte records,
the first (non-last) shard holds 4 bytes ≥ 3. -/
theorem C4_rollover_only_at_threshold_witness :
    (3 : Nat) ≤ recsSize [[7, 7], [7, 7]] :=
  C4_rollover_only_at_threshold encPair digestDemo "train" 3 [0, 1, 2, 3]
    ("train-00000.tfrecord", [[7, 7], [7, 7]]) (by decide)

/-- C8: an empty sample sequence produces no shard file, an empty shard
list and an empty checksum map; with at least one sample the first emitted
shard is shard 0. -/
theorem C8_empty_input_no_shards (enc : β → Option (List Nat))
    (digest : List (List Nat) → Nat) (pre : String) (thresh : Nat) :
    (write_shards enc digest pre thresh ([] : List β)).shard_paths = [] ∧
    (write_shards enc digest pre thresh ([] : List β)).checksums = [] ∧
    (write_shards enc digest pre thresh ([] : List β)).files = [] ∧
    ∀ images : List β, images ≠ [] →
      (write_shards enc digest pre thresh images).shard_paths.head? =
        some (basename (shardName pre 0)) := by
  refine ⟨?_, ?_, ?_, ?_⟩
  · rw [write_shards_nil]; rfl
  · rw [write_shards_nil]; rfl
  · rw [write_shards_nil]; rfl
  · intro images hne
    cases images with
    | nil => exact absurd rfl hne
    | cons a l => exact write_shards_cons_head enc digest pre thresh a l

/-- Witness for C8: a singleton input opens exactly shard 0. -/
theorem C8_empty_input_no_shards_witness :
    (write_shards encDemo digestDemo "train" 5 [0]).shard_paths.head? =
      some (basename (shardName "train" 0)) :=
  (C8_empty_input_no_shards encDemo digestDemo "train" 5).2.2.2 [0] (by decide)

/-- Helper: successes and failures of the encoder partition the input. -/
theorem countP_isSome_add_isNone (enc : β → Option (List Nat)) (l : List β) :
    l.countP (fun a => (enc a).isSome) + l.countP (fun a => (enc a).isNone) =
      l.length := by
  induction l with
  | nil => rfl
  | cons a l ih =>
    simp only [List.countP_cons]
    cases he : enc a <;> simp [he] <;> omega

/-- C3 counterexample: three collected samples, exactly one unreadable;
the conversion completes (2 = 3 - 1 records land in shards), but the
manifest's `trainSamples` is `len(train_images) = 3`, NOT reduced by one. -/
theorem C3_counterexample :
    List.countP (fun a => (encDemo a).isNone) [0, 1, 2] = 1 ∧
    totalRecords (write_shards encDemo digestDemo "train" 100 [0, 1, 2]) = 3 - 1 ∧
    metaTrainSamples [0, 1, 2] ≠ 3 - 1 := by
  decide

/-- C3 amended: with exactly one unreadable sample the conversion still
completes and exactly `collected - 1` records reach the shards, but the
manifest's `trainSamples` equals the full collected count (the skip is not
reflected in the count). -/
theorem C3_skip_completes_but_count_unreduced (enc : β → Option (List Nat))
    (digest : List (List Nat) → Nat) (pre : String) (thresh : Nat)
    (images : List β)
    (h : images.countP (fun a => (enc a).isNone) = 1) :
    totalRecords (write_shards enc digest pre thresh images) = images.length - 1 ∧
    metaTrainSamples images = images.length := by
  refine ⟨?_, rfl⟩
  rw [write_shards_records]
  have := countP_isSome_add_isNone enc images
  omega

/-- Witness for the amended C3. -/
theorem C3_skip_completes_but_count_unreduced_witness :
    totalRecords (write_shards encDemo digestDemo "train" 100 [0, 1, 2]) =
      [0, 1, 2].length - 1 ∧
    metaTrainSamples [0, 1, 2] = [0, 1, 2].length :=
  C3_skip_completes_but_count_unreduced encDemo digestDemo "train" 100 [0, 1, 2]
    (by decide)

end ShardClaims

/-! ## Collection and split-planner lemmas -/

theorem mem_foldl_append {β γ : Type} (g : β → List γ) (l : List β)
    (init : List γ) (x : γ) :
    x ∈ l.foldl (fun acc b => acc ++ g b) init ↔ x ∈ init ∨ ∃ b ∈ l, x ∈ g b := by
  induction l generalizing init with
  | nil => simp
  | cons b l ih =>
    simp only [List.foldl_cons, ih, List.mem_append, List.mem_cons]
    constructor
    · rintro ((h | h) | ⟨c, hc, hx⟩)
      · exact Or.inl h
      · exact Or.inr ⟨b, Or.inl rfl, h⟩
      · exact Or.inr ⟨c, Or.inr hc, hx⟩
    · rintro (h | ⟨c, (rfl | hc), hx⟩)
      · exact Or.inl (Or.inl h)
      · exact Or.inl (Or.inr hx)
      · exact Or.inr ⟨c, hc, hx⟩

theorem enum_mem_facts {γ : Type} {l : List γ} {p : Nat × γ} (hp : p ∈ l.enum) :
    p.1 < l.length ∧ p.2 ∈ l := by
  obtain ⟨i, a⟩ := p
  rw [List.mk_mem_enum_iff_getElem?] at hp
  obtain ⟨h, he⟩ := List.getElem?_eq_some_iff.mp hp
  exact ⟨h, he ▸ List.getElem_mem h⟩

theorem mem_collect_images {cd : FS} {cp : List String} {i : Nat}
    {x : List String × Nat} :
    x ∈ collect_images cd cp i ↔
      ∃ fn ∈ cd.listdir, isImageName fn = true ∧ x = (cp ++ [fn], i) := by
  simp only [collect_images, List.mem_map, List.mem_filter]
  constructor
  · rintro ⟨fn, ⟨hm, hi⟩, rfl⟩
    exact ⟨fn, hm, hi, rfl⟩
  · rintro ⟨fn, hm, hi, rfl⟩
    exact ⟨fn, ⟨hm, hi⟩, rfl⟩

theorem mem_collect_loop (dir : FS) (names : List String) (x : List String × Nat) :
    x ∈ names.enum.foldl (fun acc p =>
        acc ++ (match dir.lookup p.2 with
                | some cd => collect_images cd [p.2] p.1
                | none => [])) [] ↔
      ∃ p ∈ names.enum, ∃ cd, dir.lookup p.2 = some cd ∧
        x ∈ collect_images cd [p.2] p.1 := by
  rw [mem_foldl_append]
  simp only [List.not_mem_nil, false_or]
  constructor
  · rintro ⟨p, hp, hx⟩
    cases hl : dir.lookup p.2 with
    | none => rw [hl] at hx; cases hx
    | some cd => rw [hl] at hx; exact ⟨p, hp, cd, hl, hx⟩
  · rintro ⟨p, hp, cd, hl, hx⟩
    exact ⟨p, hp, by rw [hl]; exact hx⟩

theorem mem_test_images {td : FS} {names : List String} {x : List String × Nat} :
    x ∈ test_images td names ↔
      ∃ p ∈ names.enum, ∃ cd, td.lookup p.2 = some cd ∧
        x ∈ collect_images cd [p.2] p.1 :=
  mem_collect_loop td names x

theorem mem_train_pool {t : FS} {x : List String × Nat} :
    x ∈ train_pool t ↔
      ∃ p ∈ (class_names t).enum, ∃ cd, t.lookup p.2 = some cd ∧
        x ∈ collect_images cd [p.2] p.1 :=
  mem_collect_loop t (class_names t) x

/-! ## Claim theorems: split planner (C1, C5) -/

/-- C1 counterexample: at 90 collected samples and `valSplit = 0.3` the
program computes `int(90 * (1 - 0.3))` in doubles and splits at 62, while
the claimed `floor(n * (1 - f))` is 63 — both for `f` read as the decimal
3/10 and for `f` read as the exact value of the double the JSON parse
produces (5404319552844595 / 2^54); the planner's retained train list
really has 62 elements. -/
theorem C1_counterexample :
    splitIdx 90 (mkRat 3 10) = 62 ∧
    Int.toNat ⌊(90 : ℚ) * (1 - mkRat 3 10)⌋ = 63 ∧
    Int.toNat ⌊(90 : ℚ) * (1 - mkRat 5404319552844595 18014398509481984)⌋ = 63 ∧
    (splitPlan (none : Option FS) (mkRat 3 10) (List.range 90)).1.length = 62 := by
  refine ⟨by decide, ?_, ?_, by decide⟩
  · have h : ((90 : ℚ) * (1 - mkRat 3 10)) = ((63 : ℤ) : ℚ) := by
      rw [Rat.mkRat_eq_div]
      norm_num
    rw [h, Int.floor_intCast]
    rfl
  · have h : ⌊(90 : ℚ) * (1 - mkRat 5404319552844595 18014398509481984)⌋ = 63 := by
      rw [Int.floor_eq_iff]
      rw [Rat.mkRat_eq_div]
      constructor <;> norm_num
    rw [h]
    rfl

/-- C1 amended: with no test folder and a positive validation fraction in
`[0,1]`, the planner splits the shuffled pool at
`int(len * (1 - valSplit))` computed in IEEE-754 binary64 arithmetic (the
value of `splitIdx`, which can fall below the exact `floor(n * (1 - f))`,
see the counterexample): the first `splitIdx` shuffled samples become
train, the rest validation; the two parts are disjoint and together are
exactly the original sample set. -/
theorem C1_double_split_partition {β : Type} [DecidableEq β]
    (f : ℚ) (hf0 : 0 < f) (_hf1 : f ≤ 1) (pool : List β) (hnd : pool.Nodup) :
    splitPlan (none : Option FS) f pool =
      ((pyShuffle pool).take (splitIdx (pyShuffle pool).length f),
       (pyShuffle pool).drop (splitIdx (pyShuffle pool).length f)) ∧
    List.Disjoint ((pyShuffle pool).take (splitIdx (pyShuffle pool).length f))
      ((pyShuffle pool).drop (splitIdx (pyShuffle pool).length f)) ∧
    ((pyShuffle pool).take (splitIdx (pyShuffle pool).length f) ++
      (pyShuffle pool).drop (splitIdx (pyShuffle pool).length f)).Perm pool ∧
    ∀ x, (x ∈ (pyShuffle pool).take (splitIdx (pyShuffle pool).length f) ∨
          x ∈ (pyShuffle pool).drop (splitIdx (pyShuffle pool).length f)) ↔
         x ∈ pool := by
  have hperm := pyShuffle_perm pool
  refine ⟨?_, ?_, ?_, ?_⟩
  · unfold splitPlan
    rw [if_pos ⟨rfl, hf0⟩]
  · exact List.disjoint_take_drop (hperm.nodup_iff.mpr hnd) (le_refl _)
  · rw [List.take_append_drop]; exact hperm
  · intro x
    rw [← List.mem_append, List.take_append_drop]
    exact hperm.mem_iff

/-- Witness for the amended C1 on a concrete pool. -/
theorem C1_double_split_partition_witness :
    splitPlan (none : Option FS) (mkRat 1 5) [0, 1, 2, 3, 4] =
      ((pyShuffle [0, 1, 2, 3, 4]).take
         (splitIdx (pyShuffle [0, 1, 2, 3, 4]).length (mkRat 1 5)),
       (pyShuffle [0, 1, 2, 3, 4]).drop
         (splitIdx (pyShuffle [0, 1, 2, 3, 4]).length (mkRat 1 5))) ∧
    List.Disjoint
      ((pyShuffle [0, 1, 2, 3, 4]).take
        (splitIdx (pyShuffle [0, 1, 2, 3, 4]).length (mkRat 1 5)))
      ((pyShuffle [0, 1, 2, 3, 4]).drop
        (splitIdx (pyShuffle [0, 1, 2, 3, 4]).length (mkRat 1 5))) ∧
    ((pyShuffle [0, 1, 2, 3, 4]).take
       (splitIdx (pyShuffle [0, 1, 2, 3, 4]).length (mkRat 1 5)) ++
     (pyShuffle [0, 1, 2, 3, 4]).drop
       (splitIdx (pyShuffle [0, 1, 2, 3, 4]).length (mkRat 1 5))).Perm
      [0, 1, 2, 3, 4] ∧
    ∀ x, (x ∈ (pyShuffle [0, 1, 2, 3, 4]).take
            (splitIdx (pyShuffle [0, 1, 2, 3, 4]).length (mkRat 1 5)) ∨
          x ∈ (pyShuffle [0, 1, 2, 3, 4]).drop
            (splitIdx (pyShuffle [0, 1, 2, 3, 4]).length (mkRat 1 5))) ↔
         x ∈ ([0, 1, 2, 3, 4] : List Nat) :=
  C1_double_split_partition (mkRat 1 5) (by decide) (by decide)
    [0, 1, 2, 3, 4] (by decide)

/-- C5 counterexample: the claim says the planner shuffles only when no
testRoot was resolved, so with a testRoot present the retained train list
should be the pool unchanged; but the source shuffles unconditionally and
seed 42 swaps the two elements. -/
theorem C5_counterexample :
    (splitPlan (some (FS.dir [])) (1/5 : ℚ) [0, 1]).1 ≠ [0, 1] := by
  decide

/-- C5 amended: the shuffle is unconditional (with a testRoot the planner
returns the shuffled pool and an empty validation list, for every
fraction), and every test sample comes from a class folder of the test
root, never from the train pool. -/
theorem C5_shuffle_unconditional {β : Type} (td : FS) (f f' : ℚ)
    (pool : List β) (names : List String) :
    splitPlan (some td) f pool = (pyShuffle pool, []) ∧
    splitPlan (some td) f pool = splitPlan (some td) f' pool ∧
    ∀ x ∈ test_images td names, ∃ nm ∈ names, ∃ cd, td.lookup nm = some cd ∧
      ∃ fn ∈ cd.listdir, isImageName fn = true ∧ x.1 = [nm, fn] := by
  refine ⟨?_, ?_, ?_⟩
  · unfold splitPlan
    rw [if_neg (by simp)]
  · unfold splitPlan
    rw [if_neg (by simp), if_neg (by simp)]
  · intro x hx
    obtain ⟨p, hp, cd, hl, hc⟩ := mem_test_images.mp hx
    obtain ⟨fn, hfn, hi, rfl⟩ := mem_collect_images.mp hc
    exact ⟨p.2, (enum_mem_facts hp).2, cd, hl, fn, hfn, hi, rfl⟩

/-- Witness for the amended C5 at a concrete test folder. -/
theorem C5_shuffle_unconditional_witness :
    ∃ nm ∈ ["cats"], ∃ cd,
      (FS.dir [("cats", FS.dir [("1.png", FS.file)])]).lookup nm = some cd ∧
      ∃ fn ∈ cd.listdir, isImageName fn = true ∧
        ((["cats", "1.png"], 0) : List String × Nat).1 = [nm, fn] :=
  (C5_shuffle_unconditional (FS.dir [("cats", FS.dir [("1.png", FS.file)])])
      (1/5) (2/5) ([] : List Nat) ["cats"]).2.2
    (["cats", "1.png"], 0) (by decide)

/-! ## Claim theorems: class indexer (C6) and test-only classes (C10) -/

/-- The sorted class-name list is determined by the set of entries, not
their listing order. -/
theorem class_names_perm_invariant (es₁ es₂ : List (String × FS))
    (hp : es₁.Perm es₂) :
    class_names (FS.dir es₁) = class_names (FS.dir es₂) := by
  unfold class_names
  refine List.eq_of_perm_of_sorted ?_ (List.sorted_mergeSort' _) (List.sorted_mergeSort' _)
  exact (List.mergeSort_perm _ _).trans
    (((hp.filter _).map Prod.fst).trans (List.mergeSort_perm _ _).symm)

/-- C6: the Class Indexer is order-independent (any listing order of the
same class folders yields the same sorted names and the same name-to-label
map), labels are exactly the positions `0..N-1` of the sorted name list,
and both the train pool and the test collection label each sample by its
class's position in that same sorted list. -/
theorem C6_class_indexer_idempotent (es₁ es₂ : List (String × FS))
    (hp : es₁.Perm es₂) :
    class_names (FS.dir es₁) = class_names (FS.dir es₂) ∧
    class_to_idx (class_names (FS.dir es₁)) =
      class_to_idx (class_names (FS.dir es₂)) ∧
    (class_to_idx (class_names (FS.dir es₁))).map Prod.snd =
      List.range (class_names (FS.dir es₁)).length ∧
    (∀ t : FS, ∀ x ∈ train_pool t,
      ∃ nm, (nm, x.2) ∈ class_to_idx (class_names t) ∧ x.1.head? = some nm) ∧
    (∀ t td : FS, ∀ x ∈ test_images td (class_names t),
      ∃ nm, (nm, x.2) ∈ class_to_idx (class_names t) ∧ x.1.head? = some nm) := by
  have hcn := class_names_perm_invariant es₁ es₂ hp
  refine ⟨hcn, by rw [hcn], ?_, ?_, ?_⟩
  · unfold class_to_idx
    rw [List.map_map]
    have : (Prod.snd ∘ fun p : Nat × String => (p.2, p.1)) = Prod.fst := rfl
    rw [this, List.enum_map_fst]
  · intro t x hx
    obtain ⟨p, hp', cd, hl, hc⟩ := mem_train_pool.mp hx
    obtain ⟨fn, _, _, rfl⟩ := mem_collect_images.mp hc
    exact ⟨p.2, List.mem_map_of_mem _ hp', rfl⟩
  · intro t td x hx
    obtain ⟨p, hp', cd, hl, hc⟩ := mem_test_images.mp hx
    obtain ⟨fn, _, _, rfl⟩ := mem_collect_images.mp hc
    exact ⟨p.2, List.mem_map_of_mem _ hp', rfl⟩

/-- Witness for C6: two listing orders of the same two class folders. -/
theorem C6_class_indexer_idempotent_witness :
    class_names (FS.dir [("dog", FS.dir []), ("cat", FS.dir [])]) =
      class_names (FS.dir [("cat", FS.dir []), ("dog", FS.dir [])]) :=
  (C6_class_indexer_idempotent
    [("dog", FS.dir []), ("cat", FS.dir [])]
    [("cat", FS.dir []), ("dog", FS.dir [])] (List.Perm.swap _ _ _)).1

/-- C10: a class folder present only under the test root (its name not
among the train-derived class names) contributes nothing: removing or
adding it leaves the collected test samples unchanged, and every collected
test sample's label is a train-class position. -/
theorem C10_test_only_class_ignored (es : List (String × FS)) (nm : String)
    (sub : FS) (names : List String) (h : nm ∉ names) :
    test_images (FS.dir (es ++ [(nm, sub)])) names =
      test_images (FS.dir es) names ∧
    ∀ x ∈ test_images (FS.dir (es ++ [(nm, sub)])) names, x.2 < names.length := by
  constructor
  · unfold test_images
    apply List.foldl_ext
    intro acc p hpm
    have hne : p.2 ≠ nm := fun he => h (he ▸ (enum_mem_facts hpm).2)
    have hlk : (FS.dir (es ++ [(nm, sub)])).lookup p.2 = (FS.dir es).lookup p.2 := by
      unfold FS.lookup FS.entries
      rw [List.find?_append]
      have hb : (nm == p.2) = false := beq_eq_false_iff_ne.mpr (Ne.symm hne)
      have : List.find? (fun e => e.1 == p.2) [(nm, sub)] = none := by
        simp [List.find?, hb]
      rw [this, Option.or_none]
    rw [hlk]
  · intro x hx
    obtain ⟨p, hp', cd, hl, hc⟩ := mem_test_images.mp hx
    obtain ⟨fn, _, _, rfl⟩ := mem_collect_images.mp hc
    exact (enum_mem_facts hp').1

/-- Witness for C10: a `zebra` class only under the test folder is ignored. -/
theorem C10_test_only_class_ignored_witness :
    test_images (FS.dir ([("cat", FS.dir [("1.png", FS.file)])] ++
        [("zebra", FS.dir [("z.png", FS.file)])])) ["cat"] =
      test_images (FS.dir [("cat", FS.dir [("1.png", FS.file)])]) ["cat"] :=
  (C10_test_only_class_ignored [("cat", FS.dir [("1.png", FS.file)])] "zebra"
    (FS.dir [("z.png", FS.file)]) ["cat"] (by decide)).1

/-! ## Claim theorems: layout resolver (C2) -/

/-- C2 counterexample: `cexC2` has a `train` subdirectory containing at
least one subdirectory (`b`) whose first 20 listed files include an image,
so the claim requires resolution to that train root with the `test`
sibling; the source only checks the *first* listed subdirectory (`a`,
imageless), falls through everywhere, and resolves nothing. -/
theorem C2_counterexample :
    (∃ e ∈ get_subdirs cexC2train, has_images e.2 = true) ∧
    find_image_folder cexC2 = none := by
  decide

/-- C2 amended: a directory with a case-insensitive `train`/`training`
subdirectory is resolved exactly when the *first listed* subdirectory of
that folder has a recognized image extension among its first 20 entries;
resolution then returns immediately (no recursion) with the
`test`/`val`/`validation` sibling as `testRoot` when present. -/
theorem C2_train_resolved_via_first_subdir (fuel : Nat) (t : FS)
    (path : List String) :
    (∀ lay, trainCheck t (get_subdirs t) path = some lay →
      searchFS (fuel+1) t path = some lay) ∧
    (∀ nm lay, tryTrainName t (get_subdirs t) path nm = some lay ↔
      ∃ d, subdirLower ((get_subdirs t).map Prod.fst) nm = some d ∧
      ∃ td, t.lookup d = some td ∧
      ∃ n0 c0 rest, get_subdirs td = (n0, c0) :: rest ∧ has_images c0 = true ∧
        lay = ⟨path ++ [d], testSibling ((get_subdirs t).map Prod.fst) path⟩) := by
  constructor
  · intro lay h
    simp only [searchFS]
    rw [h]
  · intro nm lay
    constructor
    · intro h
      unfold tryTrainName at h
      split at h
      · exact absurd h (by simp)
      · rename_i d hd
        split at h
        · exact absurd h (by simp)
        · rename_i td hl
          split at h
          · exact absurd h (by simp)
          · rename_i n0 c0 rest hs
            split at h
            · rename_i himg
              rw [Option.some_inj] at h
              exact ⟨d, hd, td, hl, n0, c0, rest, hs, himg, h.symm⟩
            · exact absurd h (by simp)
    · rintro ⟨d, hd, td, hl, n0, c0, rest, hs, himg, rfl⟩
      unfold tryTrainName
      simp [hd, hl, hs, himg]

/-- Witness for the amended C2: `goodC2` resolves to `Train` with sibling
`Val` at the top level. -/
theorem C2_train_resolved_via_first_subdir_witness :
    searchFS 5 goodC2 [] = some ⟨["Train"], some ["Val"]⟩ :=
  (C2_train_resolved_via_first_subdir 4 goodC2 []).1
    ⟨["Train"], some ["Val"]⟩ (by decide)

end AutoML
